import Mathlib

/-! Verification development for `src/client/app.js`.

A shallow embedding of the 1:1 call client: its module-level session
variables, the socket handlers, the UI commands `leave`, `startCallFlow`,
the microphone toggle and the camera switch, and the observer installed on
the peer connection.

Every handler is a function `State → … → State × Outcome`.  Assignments made
before a JavaScript exception stay in the returned state, and the outcome
records whether the handler finished or threw (for an `async` handler: whether
its promise was rejected).  A handler runs to completion before the next
event is handled; results of the platform calls it awaits (`fetch`,
`getUserMedia`, `enumerateDevices`) are arguments of the handler.

The browser objects the script drives (`RTCPeerConnection`,
`MediaStreamTrack`, `MediaStream`) are outside the repository; they are
modelled by the small interface below, after the W3C WebRTC state machine.
Track objects live in a heap (`State.tracks`) and are referred to by index,
since streams, senders and `screenTrack` share them; a connection object that
`leave()` closes and drops is kept in `State.dropped`.  `log`, `showHud`,
`alert` and the picture-in-picture and drag code only touch the page and are
left out.
-/

namespace VideoCall

/-! ## JavaScript values -/

/-- Content of a JavaScript variable that holds an object reference:
`undefined` (declared without initialiser), `null`, or an object. -/
inductive Ref (α : Type) where
  | undef : Ref α
  | null : Ref α
  | obj (a : α) : Ref α
  deriving DecidableEq, Repr

/-- Truthiness of a reference, as tested by `if (pc)` or `!pc`. -/
def Ref.truthy {α : Type} : Ref α → Bool
  | .obj _ => true
  | _ => false

/-- Truthiness of a nullable string, as tested by `!partnerId`: `null` and the
empty string are falsy. -/
def strTruthy : Option String → Bool
  | some t => t != ""
  | none => false

/-- The JavaScript expression `a || b` on nullable strings. -/
def jsOr (a b : Option String) : Option String :=
  if strTruthy a then a else b

/-- White space and line terminators of ECMAScript, the characters that
`String.prototype.trim` strips. -/
def jsIsWhiteSpace (c : Char) : Bool :=
  c.toNat ∈ [0x09, 0x0A, 0x0B, 0x0C, 0x0D, 0x20, 0xA0, 0x1680, 0x2000, 0x2001, 0x2002,
    0x2003, 0x2004, 0x2005, 0x2006, 0x2007, 0x2008, 0x2009, 0x200A, 0x2028, 0x2029,
    0x202F, 0x205F, 0x3000, 0xFEFF]

/-- `String.prototype.trim`. -/
def jsTrim (t : String) : String :=
  String.mk ((t.toList.dropWhile jsIsWhiteSpace).reverse.dropWhile jsIsWhiteSpace).reverse

/-- `Array.prototype.findIndex`: the first index whose element satisfies `p`,
or `-1`. -/
def findIndex {α : Type} (p : α → Bool) : List α → Int
  | [] => -1
  | x :: xs => if p x then 0 else
      (if findIndex p xs = -1 then -1 else findIndex p xs + 1)

/-! ## Platform objects -/

inductive TrackKind where
  | audio
  | video
  deriving DecidableEq, Repr

/-- A `MediaStreamTrack`: `ended` is `readyState === 'ended'` (set by
`stop()`), `deviceId` is `getSettings().deviceId`. -/
structure Track where
  kind : TrackKind
  enabled : Bool
  ended : Bool
  deviceId : Option String
  deriving DecidableEq, Repr

inductive SdpKind where
  | offer
  | answer
  deriving DecidableEq, Repr

/-- A session description; `serial` tells descriptions apart. -/
structure Sdp where
  kind : SdpKind
  serial : Nat
  deriving DecidableEq, Repr

/-- An ICE candidate, identified by a label. -/
structure Candidate where
  label : Nat
  deriving DecidableEq, Repr

inductive SignalingState where
  | stable
  | haveLocalOffer
  | haveRemoteOffer
  | closed
  deriving DecidableEq, Repr

inductive ConnState where
  | new
  | connecting
  | connected
  | disconnected
  | failed
  | closed
  deriving DecidableEq, Repr

/-- The string value of `pc.connectionState`. -/
def ConnState.text : ConnState → String
  | .new => "new"
  | .connecting => "connecting"
  | .connected => "connected"
  | .disconnected => "disconnected"
  | .failed => "failed"
  | .closed => "closed"

/-- An `RTCPeerConnection`.  `senders` lists `sender.track` of each sender (a
track id or `null`), `appliedCandidates` the remote candidates the connection
accepted, `restartIceCalls` how often `restartIce()` ran, `handlersAttached`
whether `ontrack`/`onicecandidate`/`onconnectionstatechange` are set,
`hasRestartIce` whether the browser offers `restartIce` (the script calls it
through `?.`). -/
structure PeerConnection where
  signalingState : SignalingState
  connectionState : ConnState
  localDescription : Option Sdp
  remoteDescription : Option Sdp
  senders : List (Option Nat)
  appliedCandidates : List Candidate
  handlersAttached : Bool
  hasRestartIce : Bool
  restartIceCalls : Nat
  sdpSerial : Nat
  deriving DecidableEq, Repr

namespace PeerConnection

/-- Result of `new RTCPeerConnection(iceConfig)`. -/
def fresh : PeerConnection :=
  { signalingState := .stable, connectionState := .new,
    localDescription := none, remoteDescription := none,
    senders := [], appliedCandidates := [],
    handlersAttached := false, hasRestartIce := true,
    restartIceCalls := 0, sdpSerial := 0 }

/-- Platform `createOffer`: rejected unless the signalling state is `stable`
or `have-local-offer`. -/
def createOffer (p : PeerConnection) : Option (Sdp × PeerConnection) :=
  if p.signalingState = .stable ∨ p.signalingState = .haveLocalOffer then
    some ({ kind := .offer, serial := p.sdpSerial },
          { p with sdpSerial := p.sdpSerial + 1 })
  else none

/-- Platform `createAnswer`: needs a remote offer. -/
def createAnswer (p : PeerConnection) : Option (Sdp × PeerConnection) :=
  if p.signalingState = .haveRemoteOffer then
    some ({ kind := .answer, serial := p.sdpSerial },
          { p with sdpSerial := p.sdpSerial + 1 })
  else none

/-- Platform `setLocalDescription`. -/
def setLocalDescription (p : PeerConnection) (d : Sdp) : Option PeerConnection :=
  match d.kind with
  | .offer =>
    if p.signalingState = .stable ∨ p.signalingState = .haveLocalOffer then
      some { p with signalingState := .haveLocalOffer, localDescription := some d }
    else none
  | .answer =>
    if p.signalingState = .haveRemoteOffer then
      some { p with signalingState := .stable, localDescription := some d }
    else none

/-- Platform `setRemoteDescription`. -/
def setRemoteDescription (p : PeerConnection) (d : Sdp) : Option PeerConnection :=
  match d.kind with
  | .offer =>
    if p.signalingState = .stable ∨ p.signalingState = .haveRemoteOffer then
      some { p with signalingState := .haveRemoteOffer, remoteDescription := some d }
    else none
  | .answer =>
    if p.signalingState = .haveLocalOffer then
      some { p with signalingState := .stable, remoteDescription := some d }
    else none

/-- Platform `addIceCandidate`: rejected (`InvalidStateError`) while the
connection has no remote description, or when it is closed; otherwise the
candidate is applied. -/
def addIceCandidate (p : PeerConnection) (c : Candidate) : Option PeerConnection :=
  if p.signalingState = .closed then none
  else match p.remoteDescription with
    | none => none
    | some _ => some { p with appliedCandidates := p.appliedCandidates ++ [c] }

/-- Platform `sender.replaceTrack(t)` on sender `k`: rejected
(`InvalidStateError`) on a closed connection, otherwise the sender carries
`t`; no negotiation is involved. -/
def replaceTrack (p : PeerConnection) (k : Nat) (t : Option Nat) : Option PeerConnection :=
  if p.signalingState = .closed then none
  else some { p with senders := p.senders.set k t }

/-- The loop `pc.getSenders().forEach(s => pc.removeTrack(s))`: every
sender's track becomes `null`. -/
def removeAllTracks (p : PeerConnection) : PeerConnection :=
  { p with senders := p.senders.map (fun _ => none) }

/-- The assignment `pc.ontrack = pc.onicecandidate =
pc.onconnectionstatechange = null`. -/
def detachHandlers (p : PeerConnection) : PeerConnection :=
  { p with handlersAttached := false }

/-- Platform `close()`. -/
def close (p : PeerConnection) : PeerConnection :=
  { p with signalingState := .closed, connectionState := .closed }

/-- Platform `restartIce()`. -/
def restartIce (p : PeerConnection) : PeerConnection :=
  { p with restartIceCalls := p.restartIceCalls + 1 }

end PeerConnection

/-- Apply `f` to the track object with id `i` of the heap. -/
def updTrack (ts : List Track) (i : Nat) (f : Track → Track) : List Track :=
  match ts[i]? with
  | some t => ts.set i (f t)
  | none => ts

/-- `track.stop()`. -/
def stopTrack (ts : List Track) (i : Nat) : List Track :=
  updTrack ts i (fun t => { t with ended := true })

/-- `stream.getTracks().forEach(t => t.stop())`. -/
def stopAll (ts : List Track) (ids : List Nat) : List Track :=
  ids.foldl stopTrack ts

/-- Whether track `i` has kind `k`. -/
def hasKind (ts : List Track) (k : TrackKind) (i : Nat) : Bool :=
  match ts[i]? with
  | some t => t.kind == k
  | none => false

/-- `stream.getAudioTracks()`. -/
def getAudioTracks (ts : List Track) (stream : List Nat) : List Nat :=
  stream.filter (hasKind ts .audio)

/-- `stream.getVideoTracks()`. -/
def getVideoTracks (ts : List Track) (stream : List Nat) : List Nat :=
  stream.filter (hasKind ts .video)

/-- Constraints handed to `getUserMedia`: `video` is `none` for `false`,
`some none` for the default camera, `some (some id)` for `{exact: id}`. -/
structure Constraints where
  audio : Bool
  video : Option (Option String)
  deriving DecidableEq, Repr

/-- An entry of `enumerateDevices()`. -/
structure Device where
  kind : String
  deviceId : String
  deriving DecidableEq, Repr

/-! ## Session state and the signalling channel -/

/-- A message handed to `socket.emit`; `dest` is the payload field `to`. -/
inductive Msg where
  | join (roomId : String)
  | leave
  | offer (sdp : Option Sdp) (dest : String)
  | answer (sdp : Option Sdp) (dest : String)
  | iceCandidate (c : Candidate) (dest : String)
  | signalMic (enabled : Bool)
  | signalCam (enabled : Bool)
  deriving DecidableEq, Repr

inductive Outcome where
  | ok
  | threw (err : String)
  deriving DecidableEq, Repr

/-- The module-level variables of `app.js` (lines 27-29), the heap of track
objects they refer to, the text of the status element, the argument of the
last `enableControls` call, the messages emitted so far, and the connection
objects the script has dropped (in the state `leave()` left them in, no
variable refers to them any more). -/
structure State where
  tracks : List Track
  pc : Ref PeerConnection
  localStream : Ref (List Nat)
  remoteStream : Ref (List Nat)
  iceConfig : Ref Nat
  roomJoined : Bool
  partnerId : Option String
  currentVideoDeviceId : Option String
  screenTrack : Option Nat
  status : String
  controlsEnabled : Bool
  outbox : List Msg
  dropped : List PeerConnection
  deriving DecidableEq, Repr

/-- The state right after the script is loaded; `status` and
`controlsEnabled` come from the page. -/
def initialState : State :=
  { tracks := [], pc := .undef, localStream := .undef, remoteStream := .undef,
    iceConfig := .undef, roomJoined := false, partnerId := none,
    currentVideoDeviceId := none, screenTrack := none,
    status := "", controlsEnabled := false, outbox := [], dropped := [] }

/-- `socket.emit`. -/
def emit (s : State) (m : Msg) : State :=
  { s with outbox := s.outbox ++ [m] }

/-! ## Negotiation (lines 83-92, 236-260) -/

/-- `startNegotiation()`: returns at once when `pc` or `partnerId` is falsy;
otherwise creates an offer, applies it locally and emits it to `partnerId`.
A rejection of `createOffer` or `setLocalDescription` is caught and logged. -/
def startNegotiation (s : State) : State × Outcome :=
  match s.pc with
  | .obj p =>
    match s.partnerId with
    | none => (s, .ok)
    | some pid =>
      if pid = "" then (s, .ok)
      else match p.createOffer with
        | none => (s, .ok)
        | some (offer, p1) =>
          match p1.setLocalDescription offer with
          | none => ({ s with pc := .obj p1 }, .ok)
          | some p2 =>
            (emit { s with pc := .obj p2 } (.offer p2.localDescription pid), .ok)
  | _ => (s, .ok)

/-- Handler of `peer-joined`: records the partner, then negotiates. -/
def onPeerJoined (s : State) (id : String) : State × Outcome :=
  startNegotiation { s with partnerId := some id }

/-- Handler of `ready`. -/
def onReady (s : State) : State × Outcome :=
  startNegotiation s

/-- Handler of `offer` (payload `{sdp, from}`): records the partner, applies
the remote description, answers.  Nothing is caught: `pc` being `null` or
`undefined` is a `TypeError`, a platform rejection propagates. -/
def onOffer (s : State) (sdp : Sdp) (src : String) : State × Outcome :=
  let s1 := { s with partnerId := some src }
  match s.pc with
  | .obj p =>
    match p.setRemoteDescription sdp with
    | none => (s1, .threw "InvalidStateError")
    | some p1 =>
      match p1.createAnswer with
      | none => ({ s1 with pc := .obj p1 }, .threw "InvalidStateError")
      | some (ans, p2) =>
        match p2.setLocalDescription ans with
        | none => ({ s1 with pc := .obj p2 }, .threw "InvalidStateError")
        | some p3 =>
          (emit { s1 with pc := .obj p3 } (.answer p3.localDescription src), .ok)
  | _ => (s1, .threw "TypeError")

/-- Handler of `answer`: applies the remote description. -/
def onAnswer (s : State) (sdp : Sdp) : State × Outcome :=
  match s.pc with
  | .obj p =>
    match p.setRemoteDescription sdp with
    | none => (s, .threw "InvalidStateError")
    | some p1 => ({ s with pc := .obj p1 }, .ok)
  | _ => (s, .threw "TypeError")

/-- Handler of `ice-candidate`: hands the candidate to the connection; any
exception (also the `TypeError` of a missing `pc`) is caught and logged. -/
def onIceCandidate (s : State) (c : Candidate) : State × Outcome :=
  match s.pc with
  | .obj p =>
    match p.addIceCandidate c with
    | none => (s, .ok)
    | some p1 => ({ s with pc := .obj p1 }, .ok)
  | _ => (s, .ok)

/-- The observer `pc.onconnectionstatechange` (lines 72-76), run when the
connection reports state `st`: shows the state and, when it is `failed`,
calls `pc.restartIce?.()`.  Without the observer only the connection's own
state changes. -/
def onConnectionStateChange (s : State) (st : ConnState) : State × Outcome :=
  match s.pc with
  | .obj p =>
    let p1 := { p with connectionState := st }
    if p.handlersAttached then
      let s1 := { s with status := st.text }
      if st = .failed ∧ p.hasRestartIce then
        ({ s1 with pc := .obj p1.restartIce }, .ok)
      else ({ s1 with pc := .obj p1 }, .ok)
    else ({ s with pc := .obj p1 }, .ok)
  | _ => (s, .ok)

/-! ## Session commands (lines 44-124) -/

/-- `fetchIce()`; `res` is the fetched configuration, `none` a failed fetch. -/
def fetchIce (s : State) (res : Option Nat) : State × Outcome :=
  match res with
  | none => (s, .threw "FetchError")
  | some cfg => ({ s with iceConfig := .obj cfg }, .ok)

/-- The `constraints` object built by `getMedia()`; `voiceOnly` is the
state of the voice-only checkbox. -/
def mediaConstraints (s : State) (voiceOnly : Bool) : Constraints :=
  { audio := true,
    video := if voiceOnly then none
      else some (if strTruthy s.currentVideoDeviceId then s.currentVideoDeviceId
                 else none) }

/-- `getMedia()`; `gum` is the platform's `getUserMedia`, `none` a rejection.
The tracks it creates are new objects of the heap. -/
def getMedia (s : State) (voiceOnly : Bool)
    (gum : Constraints → Option (List Track)) : State × Outcome :=
  match gum (mediaConstraints s voiceOnly) with
  | none => (s, .threw "MediaError")
  | some fresh =>
    ({ s with tracks := s.tracks ++ fresh,
              localStream := .obj (List.range' s.tracks.length fresh.length) }, .ok)

/-- `createPC()`: a new connection with the three observers set and one
sender per local track. -/
def createPC (s : State) : State × Outcome :=
  let p : PeerConnection := { PeerConnection.fresh with handlersAttached := true }
  let s1 := { s with pc := .obj p, remoteStream := .obj [] }
  match s.localStream with
  | .obj ls => ({ s1 with pc := .obj { p with senders := ls.map some } }, .ok)
  | _ => (s1, .threw "TypeError")

/-- `startCallFlow()`, the join command. -/
def startCallFlow (s : State) (iceRes : Option Nat) (voiceOnly : Bool)
    (gum : Constraints → Option (List Track)) (roomIdInput : String) :
    State × Outcome :=
  match fetchIce s iceRes with
  | (s1, .threw e) => (s1, .threw e)
  | (s1, .ok) =>
    match getMedia s1 voiceOnly gum with
    | (s2, .threw e) => (s2, .threw e)
    | (s2, .ok) =>
      match createPC s2 with
      | (s3, .threw e) => (s3, .threw e)
      | (s3, .ok) =>
        let roomId := jsTrim roomIdInput
        if roomId = "" then (s3, .ok)
        else
          let s4 := emit s3 (.join roomId)
          ({ s4 with roomJoined := true, controlsEnabled := true, status := "joined" }, .ok)

/-- `leave()`.  The senders' tracks are removed, the observers detached and
the connection closed; `pc = null` then drops the last reference to it, so
the closed object moves to `dropped`. -/
def leave (s : State) : State × Outcome :=
  let s1 := if s.roomJoined then emit s .leave else s
  let s2 := { s1 with roomJoined := false, partnerId := none, controlsEnabled := false }
  let s3 := match s2.screenTrack with
    | some t => { s2 with tracks := stopTrack s2.tracks t, screenTrack := none }
    | none => s2
  let s4 := match s3.pc with
    | .obj p =>
      { s3 with pc := .null,
                dropped := s3.dropped ++ [p.removeAllTracks.detachHandlers.close] }
    | _ => s3
  let s5 := match s4.localStream with
    | .obj ls => { s4 with tracks := stopAll s4.tracks ls, localStream := .null }
    | _ => s4
  let s6 := match s5.remoteStream with
    | .obj rs => { s5 with tracks := stopAll s5.tracks rs, remoteStream := .null }
    | _ => s5
  ({ s6 with status := "left" }, .ok)

/-! ## Track commands (lines 131-164) -/

/-- `els.toggleMic.onclick`: flips `enabled` of the first local audio track
and emits the new value; returns at once without such a track. -/
def toggleMic (s : State) : State × Outcome :=
  match s.localStream with
  | .obj ls =>
    match (getAudioTracks s.tracks ls).head? with
    | none => (s, .ok)
    | some t =>
      match s.tracks[t]? with
      | none => (s, .ok)
      | some tr =>
        (emit { s with tracks := s.tracks.set t { tr with enabled := !tr.enabled } }
          (.signalMic (!tr.enabled)), .ok)
  | _ => (s, .ok)

/-- The index `(idx+1) % cams.length` computed by the camera switch, where
`idx = cams.findIndex(d => d.deviceId === target)`. -/
def nextCamIndex (cams : List Device) (target : Option String) : Nat :=
  ((findIndex (fun d => decide (some d.deviceId = target)) cams + 1)
    % (cams.length : Int)).toNat

/-- The device id the camera switch compares with:
`cur?.getSettings().deviceId || currentVideoDeviceId`. -/
def currentCamTarget (s : State) (cur : Option Nat) : Option String :=
  jsOr (cur.bind (fun i => (s.tracks[i]?).bind (fun t => t.deviceId)))
    s.currentVideoDeviceId

/-- The list `cams`: `devices.filter(d => d.kind==='videoinput')`. -/
def videoInputs (devices : List Device) : List Device :=
  devices.filter (fun d => d.kind == "videoinput")

/-- The test `s.track?.kind==='video'` on a sender's track. -/
def carriesVideo (heap : List Track) : Option Nat → Bool
  | some i => hasKind heap .video i
  | none => false

/-- `els.switchCam.onclick`; `devices` is the result of `enumerateDevices()`,
`gum` the platform's `getUserMedia`. -/
def switchCam (s : State) (devices : List Device)
    (gum : Constraints → Option (List Track)) : State × Outcome :=
  let cams := videoInputs devices
  if cams.length = 0 then (s, .ok)
  else match s.localStream with
    | .obj ls =>
      let cur := (getVideoTracks s.tracks ls).head?
      match cams[nextCamIndex cams (currentCamTarget s cur)]? with
      | none => (s, .threw "TypeError")
      | some next =>
        let s1 := { s with currentVideoDeviceId := some next.deviceId }
        match gum { audio := false, video := some (some next.deviceId) } with
        | none => (s1, .threw "MediaError")
        | some fresh =>
          let heap := s.tracks ++ fresh
          let s2 := { s1 with tracks := heap }
          let newTrack :=
            (getVideoTracks heap (List.range' s.tracks.length fresh.length)).head?
          match s.pc with
          | .obj p =>
            match p.senders.findIdx? (carriesVideo heap) with
            | none => (s2, .threw "TypeError")
            | some k =>
              match p.replaceTrack k newTrack with
              | none => (s2, .threw "InvalidStateError")
              | some p1 =>
                let s3 := { s2 with pc := .obj p1 }
                match cur with
                | none => (s3, .threw "TypeError")
                | some c =>
                  let ls1 := ls.filter (fun i => i != c)
                  let s4 := { s3 with localStream := .obj ls1, tracks := stopTrack heap c }
                  match newTrack with
                  | none => (s4, .threw "TypeError")
                  | some nt =>
                    let ls2 := if nt ∈ ls1 then ls1 else ls1 ++ [nt]
                    ({ s4 with localStream := .obj ls2 }, .ok)
          | _ => (s2, .threw "TypeError")
    | _ => (s, .threw "TypeError")

/-! ## Event traces -/

/-- An inbound relay event or an observer notification. -/
inductive Event where
  | peerJoined (id : String)
  | ready
  | offer (sdp : Sdp) (src : String)
  | answer (sdp : Sdp)
  | iceCandidate (c : Candidate)
  | connectionState (st : ConnState)
  deriving DecidableEq, Repr

/-- Dispatch of one event to its handler. -/
def step (s : State) : Event → State × Outcome
  | .peerJoined id => onPeerJoined s id
  | .ready => onReady s
  | .offer sdp src => onOffer s sdp src
  | .answer sdp => onAnswer s sdp
  | .iceCandidate c => onIceCandidate s c
  | .connectionState st => onConnectionStateChange s st

/-- Handling a list of events in arrival order; a handler that throws leaves
its state behind and the next event is handled all the same. -/
def run (s : State) (evs : List Event) : State :=
  evs.foldl (fun st e => (step st e).1) s

/-! ## The join pipeline and `leave` -/

/-- C10: when local media acquisition fails, the join command fails with it:
the promise is rejected (with the media error, once the ICE configuration
was fetched), nothing is emitted (so no `join`), no peer connection is
created, and `roomJoined`, the local stream, the partner and the status stay
as they were. -/
theorem startCallFlow_media_failure (s : State) (iceRes : Option Nat)
    (voiceOnly : Bool) (gum : Constraints → Option (List Track))
    (roomIdInput : String)
    (hfail : gum (mediaConstraints s voiceOnly) = none) :
    (∃ e, (startCallFlow s iceRes voiceOnly gum roomIdInput).2 = .threw e) ∧
    (iceRes ≠ none →
      (startCallFlow s iceRes voiceOnly gum roomIdInput).2 = .threw "MediaError") ∧
    (startCallFlow s iceRes voiceOnly gum roomIdInput).1.outbox = s.outbox ∧
    (startCallFlow s iceRes voiceOnly gum roomIdInput).1.pc = s.pc ∧
    (startCallFlow s iceRes voiceOnly gum roomIdInput).1.roomJoined = s.roomJoined ∧
    (startCallFlow s iceRes voiceOnly gum roomIdInput).1.localStream = s.localStream ∧
    (startCallFlow s iceRes voiceOnly gum roomIdInput).1.partnerId = s.partnerId ∧
    (startCallFlow s iceRes voiceOnly gum roomIdInput).1.status = s.status := by
  cases iceRes with
  | none => simp [startCallFlow, fetchIce]
  | some cfg =>
    have h : gum (mediaConstraints { s with iceConfig := .obj cfg } voiceOnly) = none := hfail
    simp [startCallFlow, fetchIce, getMedia, h]

/-- Witness of C10: joining from the initial state with a platform that
refuses every media request. -/
theorem startCallFlow_media_failure_witness :
    (startCallFlow initialState (some 7) false (fun _ => none) "abc").2
      = .threw "MediaError" ∧
    (startCallFlow initialState (some 7) false (fun _ => none) "abc").1.outbox = [] ∧
    (startCallFlow initialState (some 7) false (fun _ => none) "abc").1.pc = .undef ∧
    (startCallFlow initialState (some 7) false (fun _ => none) "abc").1.roomJoined = false :=
  have h := startCallFlow_media_failure initialState (some 7) false (fun _ => none) "abc" rfl
  ⟨h.2.1 (by decide), h.2.2.1, h.2.2.2.1, h.2.2.2.2.1⟩

/-- C5: `leave()` in a state without session (room not joined, no partner,
no screen track, no connection, no streams) finishes without raising, emits
nothing, and keeps `roomJoined`, `partnerId`, the connection, both streams,
the screen track and every track object as they were; it closes no
connection. -/
theorem leave_idle_noop (s : State)
    (hroom : s.roomJoined = false) (hpartner : s.partnerId = none)
    (hscreen : s.screenTrack = none) (hpc : s.pc.truthy = false)
    (hlocal : s.localStream.truthy = false)
    (hremote : s.remoteStream.truthy = false) :
    (leave s).2 = .ok ∧ (leave s).1.outbox = s.outbox ∧
    (leave s).1.roomJoined = s.roomJoined ∧ (leave s).1.partnerId = s.partnerId ∧
    (leave s).1.pc = s.pc ∧ (leave s).1.localStream = s.localStream ∧
    (leave s).1.remoteStream = s.remoteStream ∧
    (leave s).1.screenTrack = s.screenTrack ∧ (leave s).1.tracks = s.tracks ∧
    (leave s).1.iceConfig = s.iceConfig ∧
    (leave s).1.currentVideoDeviceId = s.currentVideoDeviceId ∧
    (leave s).1.dropped = s.dropped := by
  obtain ⟨tracks, pc, ls, rs, ice, room, partner, dev, screen, status, ctl, out, gone⟩ := s
  simp only at hroom hpartner hscreen hpc hlocal hremote
  subst hroom hpartner hscreen
  cases pc <;> cases ls <;> cases rs <;> simp_all [leave, Ref.truthy]

/-- Witness of C5 at the state in which the script starts. -/
theorem leave_idle_noop_witness :
    (leave initialState).2 = .ok ∧ (leave initialState).1.outbox = initialState.outbox ∧
    (leave initialState).1.pc = .undef :=
  have h := leave_idle_noop initialState rfl rfl rfl rfl rfl rfl
  ⟨h.1, h.2.1, h.2.2.2.2.1⟩

/-- Reading a heap slot after `stop()` of track `c`. -/
theorem stopTrack_getElem? (ts : List Track) (c i : Nat) :
    (stopTrack ts c)[i]? =
      (ts[i]?).map (fun t => if i = c then { t with ended := true } else t) := by
  unfold stopTrack updTrack
  cases hc : ts[c]? with
  | none =>
    by_cases hic : i = c
    · subst hic; simp [hc]
    · cases ts[i]? <;> simp [hic]
  | some tc =>
    have hlt : c < ts.length := by
      rcases Nat.lt_or_ge c ts.length with h1 | h1
      · exact h1
      · rw [List.getElem?_eq_none h1] at hc; cases hc
    by_cases hic : i = c
    · subst hic; simp [List.getElem?_set, hlt, hc]
    · have hci : ¬ c = i := fun h => hic h.symm
      cases hi : ts[i]? <;> simp [List.getElem?_set, hci, hic, hi]

/-- Reading a heap slot after every track of `ids` was stopped. -/
theorem stopAll_getElem? (ids : List Nat) (ts : List Track) (i : Nat) :
    (stopAll ts ids)[i]? =
      (ts[i]?).map (fun t => if i ∈ ids then { t with ended := true } else t) := by
  induction ids generalizing ts with
  | nil => simp [stopAll]
  | cons c rest ih =>
    have hstep : stopAll ts (c :: rest) = stopAll (stopTrack ts c) rest := rfl
    rw [hstep, ih, stopTrack_getElem?]
    cases ts[i]? with
    | none => rfl
    | some t =>
      by_cases hic : i = c <;> by_cases hir : i ∈ rest <;> simp [hic, hir]

/-- Stopping two lists of tracks, one after the other. -/
theorem stopAll_append (ts : List Track) (a b : List Nat) :
    stopAll (stopAll ts a) b = stopAll ts (a ++ b) := by
  simp [stopAll, List.foldl_append]

/-- The track ids of a stream variable. -/
def Ref.ids : Ref (List Nat) → List Nat
  | .obj l => l
  | _ => []

/-- The tracks `leave()` stops: the screen track and the tracks of the local
and of the remote stream. -/
def heldTracks (s : State) : List Nat :=
  s.screenTrack.toList ++ s.localStream.ids ++ s.remoteStream.ids

/-- The heap after `leave()`. -/
theorem leave_tracks (s : State) :
    (leave s).1.tracks = stopAll s.tracks (heldTracks s) := by
  obtain ⟨tracks, pc, ls, rs, ice, room, partner, dev, screen, status, ctl, out, gone⟩ := s
  cases pc <;> cases ls <;> cases rs <;> cases screen <;> cases room <;>
    simp [leave, emit, heldTracks, Ref.ids, ← stopAll_append, stopAll]

/-- Membership in the list of tracks that `leave()` stops. -/
theorem mem_heldTracks (s : State) (i : Nat) :
    i ∈ heldTracks s ↔
      (s.screenTrack = some i ∨ (∃ ls, s.localStream = .obj ls ∧ i ∈ ls) ∨
        (∃ rs, s.remoteStream = .obj rs ∧ i ∈ rs)) := by
  obtain ⟨tracks, pc, ls, rs, ice, room, partner, dev, screen, status, ctl, out, gone⟩ := s
  cases ls <;> cases rs <;> cases screen <;>
    simp [heldTracks, Ref.ids, eq_comm, or_assoc]

/-- C6: `leave()` is idempotent from every state: a second call returns the
state of the first call unchanged (so it emits nothing and stops no track)
and does not raise.  After one call the room is not joined and the partner
is cleared; the variables of the connection, both streams and the screen
track hold no object; every track that was the screen track or belonged to
the local or the remote stream is ended, every other track object is
untouched; and a connection that was held has been closed, with its senders
emptied and its observers detached, before it was dropped. -/
theorem leave_idempotent (s : State) :
    leave (leave s).1 = ((leave s).1, .ok) ∧ (leave s).2 = .ok ∧
    (leave s).1.roomJoined = false ∧ (leave s).1.partnerId = none ∧
    (leave s).1.pc.truthy = false ∧ (leave s).1.localStream.truthy = false ∧
    (leave s).1.remoteStream.truthy = false ∧ (leave s).1.screenTrack = none ∧
    (∀ i t, s.tracks[i]? = some t →
      (s.screenTrack = some i ∨ (∃ ls, s.localStream = .obj ls ∧ i ∈ ls) ∨
        (∃ rs, s.remoteStream = .obj rs ∧ i ∈ rs)) →
      (leave s).1.tracks[i]? = some { t with ended := true }) ∧
    (∀ i, ¬ (s.screenTrack = some i ∨ (∃ ls, s.localStream = .obj ls ∧ i ∈ ls) ∨
        (∃ rs, s.remoteStream = .obj rs ∧ i ∈ rs)) →
      (leave s).1.tracks[i]? = s.tracks[i]?) ∧
    (leave s).1.tracks.length = s.tracks.length ∧
    (∀ p, s.pc = .obj p →
      (leave s).1.dropped = s.dropped ++
        [{ p with senders := p.senders.map (fun _ => none), handlersAttached := false,
                  signalingState := .closed, connectionState := .closed }]) ∧
    (s.pc.truthy = false → (leave s).1.dropped = s.dropped) := by
  refine ⟨?_, ?_, ?_, ?_, ?_, ?_, ?_, ?_, ?_, ?_, ?_, ?_, ?_⟩
  · obtain ⟨tracks, pc, ls, rs, ice, room, partner, dev, screen, status, ctl, out, gone⟩ := s
    cases pc <;> cases ls <;> cases rs <;> cases screen <;> cases room <;>
      simp [leave, Ref.truthy, emit]
  · rfl
  · obtain ⟨tracks, pc, ls, rs, ice, room, partner, dev, screen, status, ctl, out, gone⟩ := s
    cases pc <;> cases ls <;> cases rs <;> cases screen <;> cases room <;>
      simp [leave, emit]
  · obtain ⟨tracks, pc, ls, rs, ice, room, partner, dev, screen, status, ctl, out, gone⟩ := s
    cases pc <;> cases ls <;> cases rs <;> cases screen <;> cases room <;>
      simp [leave, emit]
  · obtain ⟨tracks, pc, ls, rs, ice, room, partner, dev, screen, status, ctl, out, gone⟩ := s
    cases pc <;> cases ls <;> cases rs <;> cases screen <;> cases room <;>
      simp [leave, Ref.truthy, emit]
  · obtain ⟨tracks, pc, ls, rs, ice, room, partner, dev, screen, status, ctl, out, gone⟩ := s
    cases pc <;> cases ls <;> cases rs <;> cases screen <;> cases room <;>
      simp [leave, Ref.truthy, emit]
  · obtain ⟨tracks, pc, ls, rs, ice, room, partner, dev, screen, status, ctl, out, gone⟩ := s
    cases pc <;> cases ls <;> cases rs <;> cases screen <;> cases room <;>
      simp [leave, Ref.truthy, emit]
  · obtain ⟨tracks, pc, ls, rs, ice, room, partner, dev, screen, status, ctl, out, gone⟩ := s
    cases pc <;> cases ls <;> cases rs <;> cases screen <;> cases room <;>
      simp [leave, emit]
  · intro i t ht hheld
    rw [leave_tracks, stopAll_getElem?, ht]
    simp [(mem_heldTracks s i).mpr hheld]
  · intro i hfree
    have hnot : i ∉ heldTracks s := fun h => hfree ((mem_heldTracks s i).mp h)
    rw [leave_tracks, stopAll_getElem?]
    cases s.tracks[i]? <;> simp [hnot]
  · have hlen : ∀ (ids : List Nat) (ts : List Track), (stopAll ts ids).length = ts.length := by
      intro ids
      induction ids with
      | nil => intro ts; rfl
      | cons c rest ih =>
        intro ts
        have hstep : stopAll ts (c :: rest) = stopAll (stopTrack ts c) rest := rfl
        rw [hstep, ih]
        unfold stopTrack updTrack
        cases ts[c]? <;> simp
    rw [leave_tracks, hlen]
  · intro p hp
    obtain ⟨tracks, pc, ls, rs, ice, room, partner, dev, screen, status, ctl, out, gone⟩ := s
    simp only at hp
    subst hp
    cases ls <;> cases rs <;> cases screen <;> cases room <;>
      simp [leave, emit, PeerConnection.removeAllTracks, PeerConnection.detachHandlers,
        PeerConnection.close]
  · intro hp
    obtain ⟨tracks, pc, ls, rs, ice, room, partner, dev, screen, status, ctl, out, gone⟩ := s
    cases pc <;> cases ls <;> cases rs <;> cases screen <;> cases room <;>
      simp_all [leave, emit, Ref.truthy]

/-- After `leave()` the variable `pc` holds no object. -/
theorem leave_pc_falsy (s : State) : (leave s).1.pc.truthy = false := by
  obtain ⟨tracks, pc, ls, rs, ice, room, partner, dev, screen, status, ctl, out, gone⟩ := s
  cases pc <;> cases ls <;> cases rs <;> cases screen <;> cases room <;>
    simp [leave, Ref.truthy, emit]

/-- C4: what the handlers do after `leave()`.  A late `offer` overwrites the
cleared `partnerId` with the sender and then throws a `TypeError` (`pc` is no
object); a late `answer` throws the same `TypeError`; only a late
`ice-candidate` is dropped silently.  None of them emits a message. -/
theorem late_events_after_leave (s : State) (sdp : Sdp) (src : String) (c : Candidate) :
    onOffer (leave s).1 sdp src =
      ({ (leave s).1 with partnerId := some src }, .threw "TypeError") ∧
    onAnswer (leave s).1 sdp = ((leave s).1, .threw "TypeError") ∧
    onIceCandidate (leave s).1 c = ((leave s).1, .ok) := by
  have hpc := leave_pc_falsy s
  cases h : (leave s).1.pc with
  | obj p => rw [h] at hpc; simp [Ref.truthy] at hpc
  | undef => simp [onOffer, onAnswer, onIceCandidate, h]
  | null => simp [onOffer, onAnswer, onIceCandidate, h]

/-! ## Microphone toggle -/

/-- Overwriting a track by a copy with another `enabled` flag changes no
track's kind. -/
theorem hasKind_set_enabled (ts : List Track) (t : Nat) (tr : Track) (b : Bool)
    (k : TrackKind) (i : Nat) (h : ts[t]? = some tr) :
    hasKind (ts.set t { tr with enabled := b }) k i = hasKind ts k i := by
  unfold hasKind
  by_cases hti : t = i
  · subst hti
    have hlt : t < ts.length := by
      rcases Nat.lt_or_ge t ts.length with h1 | h1
      · exact h1
      · rw [List.getElem?_eq_none h1] at h; cases h
    simp [List.getElem?_set, hlt, h]
  · simp [List.getElem?_set, hti]

/-- A track listed by `getAudioTracks` is an object of the heap. -/
theorem head_audio_lookup (ts : List Track) (ls : List Nat) (t : Nat)
    (h : (getAudioTracks ts ls).head? = some t) : ∃ tr, ts[t]? = some tr := by
  have hmem : t ∈ getAudioTracks ts ls := List.mem_of_mem_head? h
  have hk : hasKind ts .audio t = true := (List.mem_filter.mp hmem).2
  unfold hasKind at hk
  cases hts : ts[t]? with
  | none => rw [hts] at hk; cases hk
  | some tr => exact ⟨tr, rfl⟩

/-- One microphone toggle, spelled out. -/
theorem toggleMic_eq (s : State) (ls : List Nat) (t : Nat) (tr : Track)
    (hls : s.localStream = .obj ls)
    (hhead : (getAudioTracks s.tracks ls).head? = some t)
    (htr : s.tracks[t]? = some tr) :
    toggleMic s =
      (emit { s with tracks := s.tracks.set t { tr with enabled := !tr.enabled } }
        (.signalMic (!tr.enabled)), .ok) := by
  simp [toggleMic, hls, hhead, htr]

/-- C9: with a local audio track `t`, two microphone toggles restore every
track object (so `enabled` of `t` is back at its value and nothing was
stopped), neither raises, and exactly two `signal` messages of type `mic` are
emitted: the negated flag, then the original one.  The first toggle changes
the `enabled` flag of `t` and nothing else in the heap. -/
theorem toggleMic_twice (s : State) (ls : List Nat) (t : Nat)
    (hls : s.localStream = .obj ls)
    (hhead : (getAudioTracks s.tracks ls).head? = some t) :
    ∃ tr, s.tracks[t]? = some tr ∧
      (toggleMic s).2 = .ok ∧ (toggleMic (toggleMic s).1).2 = .ok ∧
      (toggleMic s).1.tracks = s.tracks.set t { tr with enabled := !tr.enabled } ∧
      (toggleMic (toggleMic s).1).1.tracks = s.tracks ∧
      (toggleMic (toggleMic s).1).1.outbox =
        s.outbox ++ [.signalMic (!tr.enabled), .signalMic tr.enabled] := by
  obtain ⟨tr, htr⟩ := head_audio_lookup s.tracks ls t hhead
  have hlt : t < s.tracks.length := by
    rcases Nat.lt_or_ge t s.tracks.length with h1 | h1
    · exact h1
    · rw [List.getElem?_eq_none h1] at htr; cases htr
  have h1 := toggleMic_eq s ls t tr hls hhead htr
  have hls1 : (toggleMic s).1.localStream = .obj ls := by rw [h1]; exact hls
  have htr1 : (toggleMic s).1.tracks[t]? = some { tr with enabled := !tr.enabled } := by
    rw [h1]; simp [emit, List.getElem?_set, hlt]
  have hhead1 : (getAudioTracks (toggleMic s).1.tracks ls).head? = some t := by
    rw [h1]
    have : getAudioTracks (s.tracks.set t { tr with enabled := !tr.enabled }) ls
        = getAudioTracks s.tracks ls := by
      unfold getAudioTracks
      apply List.filter_congr
      intro i _
      exact hasKind_set_enabled s.tracks t tr (!tr.enabled) .audio i htr
    simpa [emit, this] using hhead
  have h2 := toggleMic_eq (toggleMic s).1 ls t _ hls1 hhead1 htr1
  refine ⟨tr, htr, by rw [h1], by rw [h2], by rw [h1]; rfl, ?_, ?_⟩
  · rw [h2, h1]
    simp only [emit, Bool.not_not, List.set_set]
    apply List.ext_getElem?
    intro i
    by_cases hti : t = i
    · subst hti; simp [List.getElem?_set, hlt, htr]
    · simp [List.getElem?_set, hti]
  · rw [h2, h1]
    simp [emit]

/-- A call with one microphone track and one camera track, in room `abc`. -/
def sampleCall : State :=
  { tracks := [{ kind := .audio, enabled := true, ended := false, deviceId := some "mic0" },
               { kind := .video, enabled := true, ended := false, deviceId := some "cam0" }],
    pc := .obj { PeerConnection.fresh with handlersAttached := true, senders := [some 0, some 1] },
    localStream := .obj [0, 1], remoteStream := .obj [], iceConfig := .obj 0,
    roomJoined := true, partnerId := none, currentVideoDeviceId := none,
    screenTrack := none, status := "joined", controlsEnabled := true,
    outbox := [.join "abc"], dropped := [] }

/-- The sample call is the state the join command reaches from the initial
state when the platform delivers a microphone and a camera track and the
room field reads ` abc `. -/
theorem sampleCall_reachable :
    (startCallFlow initialState (some 0) false
      (fun _ => some [{ kind := .audio, enabled := true, ended := false, deviceId := some "mic0" },
                      { kind := .video, enabled := true, ended := false, deviceId := some "cam0" }])
      " abc ").1 = sampleCall := by
  decide

/-- Witness of C6 on the sample call: after `leave()` the camera track is
ended and the closed connection has been dropped. -/
theorem leave_idempotent_witness :
    (leave sampleCall).1.tracks[1]? = some
      { kind := .video, enabled := true, ended := true, deviceId := some "cam0" } ∧
    (leave sampleCall).1.dropped =
      [{ PeerConnection.fresh with senders := [none, none], signalingState := .closed,
                                   connectionState := .closed }] :=
  have h := leave_idempotent sampleCall
  ⟨h.2.2.2.2.2.2.2.2.1 1
      { kind := .video, enabled := true, ended := false, deviceId := some "cam0" }
      (by decide) (Or.inr (Or.inl ⟨[0, 1], rfl, by decide⟩)),
    h.2.2.2.2.2.2.2.2.2.2.2.1 _ rfl⟩

/-- A room id of white space only (here a no-break space) is refused: the
join command alerts and returns without joining. -/
theorem startCallFlow_blank_room :
    (startCallFlow initialState (some 0) false
      (fun _ => some [{ kind := .audio, enabled := true, ended := false, deviceId := some "mic0" }])
      "\u00a0").1.roomJoined = false ∧
    (startCallFlow initialState (some 0) false
      (fun _ => some [{ kind := .audio, enabled := true, ended := false, deviceId := some "mic0" }])
      "\u00a0").1.outbox = [] := by
  decide

/-- Witness of C9 on the sample call. -/
theorem toggleMic_twice_witness :
    ∃ tr, sampleCall.tracks[0]? = some tr ∧
      (toggleMic sampleCall).2 = .ok ∧ (toggleMic (toggleMic sampleCall).1).2 = .ok ∧
      (toggleMic sampleCall).1.tracks
        = sampleCall.tracks.set 0 { tr with enabled := !tr.enabled } ∧
      (toggleMic (toggleMic sampleCall).1).1.tracks = sampleCall.tracks ∧
      (toggleMic (toggleMic sampleCall).1).1.outbox =
        sampleCall.outbox ++ [.signalMic (!tr.enabled), .signalMic tr.enabled] :=
  toggleMic_twice sampleCall [0, 1] 0 rfl rfl

/-! ## Camera switch -/

/-- The result of `findIndex` is `-1` or an index of the list. -/
theorem findIndex_bounds {α : Type} (p : α → Bool) (l : List α) :
    -1 ≤ findIndex p l ∧ findIndex p l < (l.length : Int) := by
  induction l with
  | nil => simp [findIndex]
  | cons x xs ih =>
    unfold findIndex
    by_cases hx : p x = true
    · simp only [hx, if_true, List.length_cons]; omega
    · simp only [hx, List.length_cons]
      by_cases h1 : findIndex p xs = -1
      · simp only [h1, if_true]; simp; omega
      · simp only [h1, if_false]; simp; omega

/-- On a list without match `findIndex` is `-1`. -/
theorem findIndex_none {α : Type} (p : α → Bool) (l : List α)
    (h : ∀ x ∈ l, p x = false) : findIndex p l = -1 := by
  induction l with
  | nil => rfl
  | cons x xs ih =>
    have hx : p x = false := h x (List.mem_cons_self x xs)
    have hxs : findIndex p xs = -1 := ih (fun y hy => h y (List.mem_cons_of_mem x hy))
    simp [findIndex, hx, hxs]

/-- The result of `findIndex` is the first index whose element matches. -/
theorem findIndex_first {α : Type} (p : α → Bool) (l : List α) (i : Nat) (x : α)
    (hi : l[i]? = some x) (hp : p x = true)
    (hmin : ∀ j y, j < i → l[j]? = some y → p y = false) :
    findIndex p l = (i : Int) := by
  induction l generalizing i with
  | nil => simp at hi
  | cons a as ih =>
    cases i with
    | zero =>
      simp only [List.getElem?_cons_zero, Option.some.injEq] at hi
      subst hi
      simp [findIndex, hp]
    | succ n =>
      have ha : p a = false := hmin 0 a (Nat.succ_pos n) (by simp)
      have hn : findIndex p as = (n : Int) :=
        ih n (by simpa using hi)
          (fun j y hj hy => hmin (j + 1) y (Nat.succ_lt_succ hj) (by simpa using hy))
      have hne : ¬ ((n : Int) = -1) := by omega
      simp only [findIndex, ha, hn, hne, if_false]
      push_cast
      rfl

/-- The index computed by the camera switch lies within the list. -/
theorem nextCamIndex_lt (cams : List Device) (target : Option String)
    (h : cams ≠ []) : nextCamIndex cams target < cams.length := by
  have hpos : 0 < cams.length := List.length_pos.mpr h
  have hb := findIndex_bounds (fun d => decide (some d.deviceId = target)) cams
  unfold nextCamIndex
  have h1 := Int.emod_lt_of_pos
    (findIndex (fun d => decide (some d.deviceId = target)) cams + 1)
    (show (0 : Int) < (cams.length : Int) by exact_mod_cast hpos)
  have h2 := Int.emod_nonneg
    (findIndex (fun d => decide (some d.deviceId = target)) cams + 1)
    (show (cams.length : Int) ≠ 0 by omega)
  omega

/-- Once the camera list is non-empty and the local stream exists, the switch
records the id of the device at `nextCamIndex`, whatever happens afterwards. -/
theorem switchCam_records (s : State) (devices : List Device)
    (gum : Constraints → Option (List Track)) (ls : List Nat) (next : Device)
    (hls : s.localStream = .obj ls) (hne : videoInputs devices ≠ [])
    (hnext : (videoInputs devices)[nextCamIndex (videoInputs devices)
      (currentCamTarget s (getVideoTracks s.tracks ls).head?)]? = some next) :
    (switchCam s devices gum).1.currentVideoDeviceId = some next.deviceId := by
  have hlen : ¬ (videoInputs devices).length = 0 := by
    intro h0; exact hne (List.length_eq_zero.mp h0)
  simp only [switchCam, hlen, if_false, hls, hnext]
  split
  · rfl
  · split
    · split
      · rfl
      · split
        · rfl
        · split
          · rfl
          · split
            · rfl
            · rfl
    · rfl

/-- A track has kind `k` exactly when the heap holds an object of that kind
under its id. -/
theorem hasKind_iff (ts : List Track) (k : TrackKind) (i : Nat) :
    hasKind ts k i = true ↔ ∃ t, ts[i]? = some t ∧ t.kind = k := by
  unfold hasKind
  cases ts[i]? with
  | none => simp
  | some t => simp

/-- The first element that passes a filter splits the list. -/
theorem filter_head?_split (q : Nat → Bool) (l : List Nat) (c : Nat)
    (h : (l.filter q).head? = some c) :
    ∃ pre post, l = pre ++ c :: post ∧ (∀ j ∈ pre, q j = false) ∧ q c = true := by
  induction l with
  | nil => simp at h
  | cons x xs ih =>
    by_cases hx : q x = true
    · have hc : x = c := by simpa [List.filter, hx] using h
      subst hc
      exact ⟨[], xs, rfl, by simp, hx⟩
    · have hx2 : q x = false := by simpa using hx
      have h2 : (xs.filter q).head? = some c := by simpa [List.filter, hx2] using h
      obtain ⟨pre, post, hsplit, hpre, hqc⟩ := ih h2
      refine ⟨x :: pre, post, by rw [hsplit]; rfl, ?_, hqc⟩
      intro j hj
      rcases List.mem_cons.mp hj with hj | hj
      · rw [hj]; exact hx2
      · exact hpre j hj

/-- The head of a filtered list, from a split at the first passing element. -/
theorem filter_head?_of_split (q : Nat → Bool) (pre post : List Nat) (c : Nat)
    (hpre : ∀ j ∈ pre, q j = false) (hc : q c = true) :
    ((pre ++ c :: post).filter q).head? = some c := by
  induction pre with
  | nil => simp [List.filter, hc]
  | cons x xs ih =>
    have hx : q x = false := hpre x (List.mem_cons_self x xs)
    have hrest := ih (fun j hj => hpre j (List.mem_cons_of_mem x hj))
    simpa [List.filter, hx] using hrest

/-- The first video track of the local stream `ls` reports the non-empty
device id `id`: `ls` splits into tracks that are not video, a video track
`cur` with `getSettings().deviceId === id`, and the rest. -/
def LiveDeviceId (s : State) (ls : List Nat) (id : String) : Prop :=
  ∃ pre cur post tr, ls = pre ++ cur :: post ∧
    (∀ j ∈ pre, ∀ t, s.tracks[j]? = some t → t.kind ≠ .video) ∧
    s.tracks[cur]? = some tr ∧ tr.kind = .video ∧ tr.deviceId = some id ∧ id ≠ ""

/-- The selection rule of the camera switch, for the camera list `cams`, the
currently selected device `current` and the id `recorded` in
`currentVideoDeviceId`: the recorded id is that of a device of the list; when
`current` is first found at index `i` it is the device at `(i+1) mod n`; when
`current` is not in the list it is the first device. -/
def SelectsNext (cams : List Device) (current recorded : Option String) : Prop :=
  (∃ k next, k < cams.length ∧ cams[k]? = some next ∧ recorded = some next.deviceId) ∧
  (∀ i d, cams[i]? = some d → some d.deviceId = current →
    (∀ j e, j < i → cams[j]? = some e → some e.deviceId ≠ current) →
    ∃ next, cams[(i + 1) % cams.length]? = some next ∧ recorded = some next.deviceId) ∧
  ((∀ d ∈ cams, some d.deviceId ≠ current) →
    ∃ d0, cams[0]? = some d0 ∧ recorded = some d0.deviceId)

/-- With a live video track that reports a device id, the switch compares
with that id. -/
theorem currentCamTarget_live (s : State) (ls : List Nat) (id : String)
    (h : LiveDeviceId s ls id) :
    currentCamTarget s (getVideoTracks s.tracks ls).head? = some id := by
  obtain ⟨pre, cur, post, tr, hsplit, hpre, htr, hkind, hdev, hid⟩ := h
  have hhead : (getVideoTracks s.tracks ls).head? = some cur := by
    rw [hsplit]
    apply filter_head?_of_split
    · intro j hj
      cases hk : hasKind s.tracks .video j with
      | false => rfl
      | true =>
        obtain ⟨t, ht, htk⟩ := (hasKind_iff s.tracks .video j).mp hk
        exact absurd htk (hpre j hj t ht)
    · exact (hasKind_iff s.tracks .video cur).mpr ⟨tr, htr, hkind⟩
  rw [hhead]
  simp [currentCamTarget, jsOr, strTruthy, htr, hdev, hid]

/-- Without such a track the switch compares with the stored selection. -/
theorem currentCamTarget_stored (s : State) (ls : List Nat)
    (h : ¬ ∃ id, LiveDeviceId s ls id) :
    currentCamTarget s (getVideoTracks s.tracks ls).head? = s.currentVideoDeviceId := by
  cases hhead : (getVideoTracks s.tracks ls).head? with
  | none => simp [currentCamTarget, jsOr, strTruthy]
  | some cur =>
    obtain ⟨pre, post, hsplit, hpre, hcur⟩ :=
      filter_head?_split (hasKind s.tracks .video) ls cur hhead
    obtain ⟨tr, htr, hkind⟩ := (hasKind_iff s.tracks .video cur).mp hcur
    have hfalsy : ∀ id, tr.deviceId = some id → id = "" := by
      intro id hdev
      by_contra hid
      refine h ⟨id, pre, cur, post, tr, hsplit, ?_, htr, hkind, hdev, hid⟩
      intro j hj t ht htk
      have hk : hasKind s.tracks .video j = true :=
        (hasKind_iff s.tracks .video j).mpr ⟨t, ht, htk⟩
      rw [hpre j hj] at hk
      cases hk
    cases hdev : tr.deviceId with
    | none => simp [currentCamTarget, jsOr, strTruthy, htr, hdev]
    | some id =>
      have hid := hfalsy id hdev
      subst hid
      simp [currentCamTarget, jsOr, strTruthy, htr, hdev]

/-- The selection rule holds for the id recorded at `nextCamIndex`. -/
theorem selectsNext_of_index (cams : List Device) (current recorded : Option String)
    (hne : cams ≠ [])
    (hrec : ∀ next, cams[nextCamIndex cams current]? = some next →
      recorded = some next.deviceId) :
    SelectsNext cams current recorded := by
  have hlt := nextCamIndex_lt cams current hne
  refine ⟨?_, ?_, ?_⟩
  · exact ⟨nextCamIndex cams current, cams[nextCamIndex cams current], hlt,
      List.getElem?_eq_getElem hlt, hrec _ (List.getElem?_eq_getElem hlt)⟩
  · intro i d hi hd hmin
    have hfi := findIndex_first (fun d => decide (some d.deviceId = current)) cams i d hi
      (by simpa using hd) (fun j e hj he => by simpa using hmin j e hj he)
    have hidx : nextCamIndex cams current = (i + 1) % cams.length := by
      unfold nextCamIndex
      rw [hfi]
      have : ((i : Int) + 1) % (cams.length : Int)
          = (((i + 1) % cams.length : Nat) : Int) := by
        push_cast; rfl
      rw [this]
      exact Int.toNat_ofNat _
    rw [← hidx]
    exact ⟨cams[nextCamIndex cams current], List.getElem?_eq_getElem hlt,
      hrec _ (List.getElem?_eq_getElem hlt)⟩
  · intro hnone
    have hfi := findIndex_none (fun d => decide (some d.deviceId = current)) cams
      (fun d hd => by simpa using hnone d hd)
    have hidx : nextCamIndex cams current = 0 := by
      unfold nextCamIndex
      rw [hfi]
      simp
    rw [← hidx]
    exact ⟨cams[nextCamIndex cams current], List.getElem?_eq_getElem hlt,
      hrec _ (List.getElem?_eq_getElem hlt)⟩

/-- C7, amended: in a session that holds a local stream, for every non-empty
list `cams` of video input devices the switch command records in
`currentVideoDeviceId` the id of a device of the list: the device at
`(i+1) mod n` when the currently selected device is first found at index `i`
(the last device wraps to the first), the first device when it is not in the
list.  The currently selected device is the device id that the first local
video track reports, if there is such a track and the id is non-empty, and
the stored `currentVideoDeviceId` otherwise. -/
theorem switchCam_selects_next (s : State) (devices cams : List Device)
    (gum : Constraints → Option (List Track)) (ls : List Nat)
    (hls : s.localStream = .obj ls)
    (hcams : cams = devices.filter (fun d => d.kind == "videoinput"))
    (hne : cams ≠ []) :
    (∀ id, LiveDeviceId s ls id →
      SelectsNext cams (some id) (switchCam s devices gum).1.currentVideoDeviceId) ∧
    ((¬ ∃ id, LiveDeviceId s ls id) →
      SelectsNext cams s.currentVideoDeviceId
        (switchCam s devices gum).1.currentVideoDeviceId) := by
  have hvi : videoInputs devices = cams := hcams.symm
  have hne2 : videoInputs devices ≠ [] := by rw [hvi]; exact hne
  constructor
  · intro id hlive
    have htarget := currentCamTarget_live s ls id hlive
    apply selectsNext_of_index cams (some id) _ hne
    intro next hnext
    apply switchCam_records s devices gum ls next hls hne2
    rw [hvi, htarget]
    exact hnext
  · intro hstored
    have htarget := currentCamTarget_stored s ls hstored
    apply selectsNext_of_index cams s.currentVideoDeviceId _ hne
    intro next hnext
    apply switchCam_records s devices gum ls next hls hne2
    rw [hvi, htarget]
    exact hnext

/-- A device list with one camera and one microphone. -/
def oneCamera : List Device :=
  [{ kind := "audioinput", deviceId := "mic0" }, { kind := "videoinput", deviceId := "cam0" }]

/-- A device list with two cameras. -/
def twoCameras : List Device :=
  [{ kind := "videoinput", deviceId := "cam0" }, { kind := "videoinput", deviceId := "cam1" }]

/-- A platform that serves every camera request with one new video track of
the requested device, and no other request. -/
def cameraOnly (c : Constraints) : Option (List Track) :=
  match c.video with
  | some dev => some [{ kind := .video, enabled := true, ended := false, deviceId := dev }]
  | none => none

/-- The track of the sender found by
`pc.getSenders().find(s => s.track?.kind==='video')`. -/
def outboundVideoTrack (s : State) : Option Nat :=
  match s.pc with
  | .obj p => (p.senders.find? (carriesVideo s.tracks)).join
  | _ => none

/-- The track `localStream.getVideoTracks()[0]`. -/
def localVideoTrack (s : State) : Option Nat :=
  match s.localStream with
  | .obj ls => (getVideoTracks s.tracks ls).head?
  | _ => none

/-- Whether track `i` has been stopped. -/
def trackEnded (s : State) (i : Nat) : Option Bool :=
  (s.tracks[i]?).map (fun t => t.ended)

/-- C8 fails as stated: with a single camera in the device list the switch
resolves, but the outbound and local video track, track `1` before, is the
new track `2` afterwards, and track `1` has been stopped. -/
theorem switchCam_single_camera_replaces_track :
    (videoInputs oneCamera).length = 1 ∧
    (switchCam sampleCall oneCamera cameraOnly).2 = .ok ∧
    outboundVideoTrack sampleCall = some 1 ∧ localVideoTrack sampleCall = some 1 ∧
    trackEnded sampleCall 1 = some false ∧
    outboundVideoTrack (switchCam sampleCall oneCamera cameraOnly).1 = some 2 ∧
    localVideoTrack (switchCam sampleCall oneCamera cameraOnly).1 = some 2 ∧
    trackEnded (switchCam sampleCall oneCamera cameraOnly).1 1 = some true := by
  decide

/-- A track with a kind is an object of the heap. -/
theorem hasKind_lt (ts : List Track) (k : TrackKind) (i : Nat)
    (h : hasKind ts k i = true) : i < ts.length := by
  unfold hasKind at h
  rcases Nat.lt_or_ge i ts.length with h1 | h1
  · exact h1
  · rw [List.getElem?_eq_none h1] at h; cases h

/-- Allocating new tracks keeps the kind of the old ones. -/
theorem hasKind_append (ts fresh : List Track) (k : TrackKind) (i : Nat)
    (h : hasKind ts k i = true) : hasKind (ts ++ fresh) k i = true := by
  have hlt := hasKind_lt ts k i h
  unfold hasKind at h ⊢
  rw [List.getElem?_append_left hlt]
  exact h

/-- Stopping a track changes no track's kind. -/
theorem hasKind_stopTrack (ts : List Track) (c : Nat) (k : TrackKind) (i : Nat) :
    hasKind (stopTrack ts c) k i = hasKind ts k i := by
  unfold stopTrack updTrack
  cases hc : ts[c]? with
  | none => rfl
  | some t =>
    have hlt : c < ts.length := by
      rcases Nat.lt_or_ge c ts.length with h1 | h1
      · exact h1
      · rw [List.getElem?_eq_none h1] at hc; cases hc
    unfold hasKind
    by_cases hci : c = i
    · subst hci; simp [List.getElem?_set, hlt, hc]
    · simp [List.getElem?_set, hci]

/-- A stopped track of the heap is ended. -/
theorem stopTrack_ended (ts : List Track) (c : Nat) (h : c < ts.length) :
    ((stopTrack ts c)[c]?).map (fun t => t.ended) = some true := by
  unfold stopTrack updTrack
  rw [List.getElem?_eq_getElem h]
  simp [List.getElem?_set, h]

/-- Overwriting the first matching element by a matching one makes it the
element that `find` returns. -/
theorem find?_set_first {α : Type} (q : α → Bool) (l : List α) (k : Nat) (a : α)
    (hk : k < l.length) (hmin : ∀ j y, j < k → l[j]? = some y → q y = false)
    (ha : q a = true) : (l.set k a).find? q = some a := by
  induction l generalizing k with
  | nil => simp at hk
  | cons x xs ih =>
    cases k with
    | zero => simp [List.set, ha]
    | succ n =>
      have hx : q x = false := hmin 0 x (Nat.succ_pos n) (by simp)
      have hrec := ih n (by simpa using hk)
        (fun j y hj hy => hmin (j + 1) y (Nat.succ_lt_succ hj) (by simpa using hy))
      simp [List.set, List.find?, hx, hrec]

/-- The successful path of the camera switch, spelled out. -/
theorem switchCam_eq (s : State) (devices : List Device)
    (gum : Constraints → Option (List Track)) (ls : List Nat) (cur : Nat)
    (p : PeerConnection) (next : Device) (fresh : List Track) (nt k : Nat)
    (hne : videoInputs devices ≠ [])
    (hls : s.localStream = .obj ls)
    (hcur : (getVideoTracks s.tracks ls).head? = some cur)
    (hnext : (videoInputs devices)[nextCamIndex (videoInputs devices)
      (currentCamTarget s (some cur))]? = some next)
    (hpc : s.pc = .obj p) (hopen : p.signalingState ≠ .closed)
    (hk : p.senders.findIdx? (carriesVideo (s.tracks ++ fresh)) = some k)
    (hgum : gum { audio := false, video := some (some next.deviceId) } = some fresh)
    (hnt : (getVideoTracks (s.tracks ++ fresh)
      (List.range' s.tracks.length fresh.length)).head? = some nt) :
    switchCam s devices gum =
      ({ s with
          currentVideoDeviceId := some next.deviceId,
          tracks := stopTrack (s.tracks ++ fresh) cur,
          pc := .obj { p with senders := p.senders.set k (some nt) },
          localStream := .obj (if nt ∈ ls.filter (fun i => i != cur)
            then ls.filter (fun i => i != cur)
            else ls.filter (fun i => i != cur) ++ [nt]) }, .ok) := by
  have hlen : ¬ (videoInputs devices).length = 0 := by
    intro h0; exact hne (List.length_eq_zero.mp h0)
  simp only [switchCam, hlen, if_false, hls, hcur, hnext, hgum, hpc, hk, hnt,
    PeerConnection.replaceTrack, hopen]

/-- C8, amended: with exactly one camera in the device list, a local video
track `cur`, an open connection with a sender that carries video and a
platform that delivers a new video track `nt` for that camera, the switch
resolves successfully and keeps
the selection on that camera, but it does replace the track: `nt` is a newly
allocated track different from `cur`, the video sender and the local stream
carry `nt`, the local stream no longer holds `cur`, and `cur` is stopped. -/
theorem switchCam_single_camera_reacquires (s : State) (devices : List Device)
    (gum : Constraints → Option (List Track)) (ls : List Nat) (cur : Nat)
    (p : PeerConnection) (cam : Device) (fresh : List Track) (nt v : Nat)
    (hone : videoInputs devices = [cam])
    (hls : s.localStream = .obj ls)
    (hcur : (getVideoTracks s.tracks ls).head? = some cur)
    (hpc : s.pc = .obj p) (hopen : p.signalingState ≠ .closed)
    (hsend : some v ∈ p.senders) (hv : hasKind s.tracks .video v = true)
    (hgum : gum { audio := false, video := some (some cam.deviceId) } = some fresh)
    (hnt : (getVideoTracks (s.tracks ++ fresh)
      (List.range' s.tracks.length fresh.length)).head? = some nt) :
    (switchCam s devices gum).2 = .ok ∧
    (switchCam s devices gum).1.currentVideoDeviceId = some cam.deviceId ∧
    s.tracks.length ≤ nt ∧ nt ≠ cur ∧
    hasKind (switchCam s devices gum).1.tracks .video nt = true ∧
    outboundVideoTrack (switchCam s devices gum).1 = some nt ∧
    (∃ ls', (switchCam s devices gum).1.localStream = .obj ls' ∧ nt ∈ ls' ∧ cur ∉ ls') ∧
    trackEnded (switchCam s devices gum).1 cur = some true := by
  have hne : videoInputs devices ≠ [] := by rw [hone]; simp
  have hidx : nextCamIndex (videoInputs devices) (currentCamTarget s (some cur)) = 0 := by
    have h := nextCamIndex_lt (videoInputs devices) (currentCamTarget s (some cur)) hne
    rw [hone] at h ⊢
    simp only [List.length_singleton] at h
    omega
  have hnext : (videoInputs devices)[nextCamIndex (videoInputs devices)
      (currentCamTarget s (some cur))]? = some cam := by
    rw [hidx, hone]; rfl
  have hvheap : carriesVideo (s.tracks ++ fresh) (some v) = true :=
    hasKind_append s.tracks fresh .video v hv
  have hk := List.findIdx?_eq_some_of_exists ⟨some v, hsend, hvheap⟩
  have heq := switchCam_eq s devices gum ls cur p cam fresh nt _ hne hls hcur hnext hpc
    hopen hk hgum hnt
  have hntmem := List.mem_filter.mp (List.mem_of_mem_head? hnt)
  have hntlen : s.tracks.length ≤ nt := (List.mem_range'_1.mp hntmem.1).1
  have hcurlt : cur < s.tracks.length :=
    hasKind_lt s.tracks .video cur (List.mem_filter.mp (List.mem_of_mem_head? hcur)).2
  have hcurheap : cur < (s.tracks ++ fresh).length := by
    rw [List.length_append]; omega
  have hne2 : nt ≠ cur := by omega
  have hkindnt : hasKind (stopTrack (s.tracks ++ fresh) cur) .video nt = true := by
    rw [hasKind_stopTrack]; exact hntmem.2
  obtain ⟨hklt, _, hkmin⟩ := List.findIdx?_eq_some_iff_getElem.mp hk
  rw [heq]
  refine ⟨rfl, rfl, hntlen, hne2, hkindnt, ?_, ?_, ?_⟩
  · simp only [outboundVideoTrack]
    rw [find?_set_first (carriesVideo (stopTrack (s.tracks ++ fresh) cur)) p.senders _
      (some nt) hklt ?_ hkindnt]
    · rfl
    · intro j y hj hy
      obtain ⟨hjlt, hyeq⟩ := List.getElem?_eq_some.mp hy
      have hnot := hkmin j hj
      rw [hyeq] at hnot
      cases y with
      | none => rfl
      | some i =>
        simp only [carriesVideo] at hnot ⊢
        rw [hasKind_stopTrack]
        simpa using hnot
  · by_cases hmem : nt ∈ ls.filter (fun i => i != cur)
    · refine ⟨ls.filter (fun i => i != cur), by simp [hmem], hmem, ?_⟩
      simp [List.mem_filter]
    · refine ⟨ls.filter (fun i => i != cur) ++ [nt], by simp [hmem], by simp, ?_⟩
      simp only [List.mem_append, List.mem_filter, List.mem_singleton]
      intro h
      rcases h with h | h
      · simp at h
      · exact hne2 h.symm
  · exact stopTrack_ended (s.tracks ++ fresh) cur hcurheap

/-- Witness of the amended C8 on the sample call. -/
theorem switchCam_single_camera_reacquires_witness :
    (switchCam sampleCall oneCamera cameraOnly).2 = .ok ∧
    (switchCam sampleCall oneCamera cameraOnly).1.currentVideoDeviceId = some "cam0" ∧
    outboundVideoTrack (switchCam sampleCall oneCamera cameraOnly).1 = some 2 :=
  have h := switchCam_single_camera_reacquires sampleCall oneCamera cameraOnly [0, 1] 1
    { PeerConnection.fresh with handlersAttached := true, senders := [some 0, some 1] }
    { kind := "videoinput", deviceId := "cam0" }
    [{ kind := .video, enabled := true, ended := false, deviceId := some "cam0" }] 2 1
    (by decide) rfl (by decide) rfl (by decide) (by decide) (by decide) rfl (by decide)
  ⟨h.1, h.2.1, h.2.2.2.2.2.1⟩

/-- The sample call after one camera switch with two cameras: the camera
track `2` of `cam1` replaced track `1`. -/
def afterSwitch : State :=
  (switchCam sampleCall twoCameras cameraOnly).1

/-- A call joined in voice-only mode: a microphone track and no camera. -/
def voiceCall : State :=
  (startCallFlow initialState (some 0) true
    (fun _ => some [{ kind := .audio, enabled := true, ended := false, deviceId := some "mic0" }])
    "abc").1

/-- Witness of the amended C7 on reachable states.  After a switch to `cam1`
the live track reports `cam1`, found at index `1` of two cameras, and the
next switch wraps around to `cam0`; in a voice-only call there is no video
track, the stored selection `null` is not in the list, and the first camera
is recorded. -/
theorem switchCam_selects_next_witness :
    (switchCam afterSwitch twoCameras cameraOnly).1.currentVideoDeviceId = some "cam0" ∧
    (switchCam voiceCall twoCameras cameraOnly).1.currentVideoDeviceId = some "cam0" := by
  have hA := (switchCam_selects_next afterSwitch twoCameras twoCameras cameraOnly [0, 2]
    (by decide) (by decide) (by decide)).1 "cam1"
    ⟨[0], 2, [], { kind := .video, enabled := true, ended := false, deviceId := some "cam1" },
      rfl,
      (fun j hj t ht => by
        have hj0 : j = 0 := by simpa using hj
        subst hj0
        have h0 : afterSwitch.tracks[0]? = some
            { kind := .audio, enabled := true, ended := false, deviceId := some "mic0" } := by
          decide
        rw [h0] at ht
        cases ht
        decide),
      by decide, rfl, rfl, by decide⟩
  have hB := (switchCam_selects_next voiceCall twoCameras twoCameras cameraOnly [0]
    (by decide) (by decide) (by decide)).2
    (fun hex => by
      obtain ⟨id, pre, cur, post, tr, hsplit, _, htr, hkind, _, _⟩ := hex
      have hcur : cur = 0 := by
        cases pre with
        | nil =>
          have h2 : cur = 0 ∧ post = [] := by simpa using hsplit.symm
          exact h2.1
        | cons x xs =>
          cases xs <;> simp at hsplit
      subst hcur
      have h0 : voiceCall.tracks[0]? = some
          { kind := .audio, enabled := true, ended := false, deviceId := some "mic0" } := by
        decide
      rw [h0] at htr
      cases htr
      cases hkind)
  constructor
  · obtain ⟨next, hnext, hrec⟩ := hA.2.1 1 { kind := "videoinput", deviceId := "cam1" }
      (by decide) (by decide)
      (fun j e hj he => by
        have hj0 : j = 0 := by omega
        subst hj0
        have h0 : twoCameras[0]? = some { kind := "videoinput", deviceId := "cam0" } := by
          decide
        rw [h0] at he
        cases he
        decide)
    have hn : twoCameras[(1 + 1) % twoCameras.length]?
        = some { kind := "videoinput", deviceId := "cam0" } := by decide
    rw [hn] at hnext
    cases hnext
    exact hrec
  · obtain ⟨d0, hd0, hrec⟩ := hB.2.2 (by decide)
    have hn : twoCameras[0]? = some { kind := "videoinput", deviceId := "cam0" } := by
      decide
    rw [hn] at hd0
    cases hd0
    exact hrec

/-- The state after the camera was switched to `cam1` and the call was left. -/
def leftOnCam1 : State :=
  (leave afterSwitch).1

/-- C7 fails as stated, without a local stream: after `leave()` the stored
selection `cam1` is found at index `1` of a list of two cameras, but the
switch command throws a `TypeError` on `localStream.getVideoTracks()` and
records nothing, where the claim has it select the device at index
`(1+1) mod 2 = 0`. -/
theorem switchCam_without_stream_selects_nothing :
    leftOnCam1.localStream = .null ∧ leftOnCam1.controlsEnabled = false ∧
    leftOnCam1.currentVideoDeviceId = some "cam1" ∧
    (videoInputs twoCameras)[1]? = some { kind := "videoinput", deviceId := "cam1" } ∧
    (videoInputs twoCameras)[(1 + 1) % 2]? = some { kind := "videoinput", deviceId := "cam0" } ∧
    switchCam leftOnCam1 twoCameras cameraOnly = (leftOnCam1, .threw "TypeError") := by
  decide

/-! ## Offer triggers -/

/-- Whether a message is an `offer` addressed to `P`. -/
def isOfferTo (P : String) : Msg → Bool
  | .offer _ d => d == P
  | _ => false

/-- Number of `offer` messages addressed to `P` in an outbox. -/
def offersTo (P : String) (out : List Msg) : Nat :=
  out.countP (isOfferTo P)

/-- A live connection whose signalling state admits `createOffer`. -/
def canOffer (s : State) : Bool :=
  match s.pc with
  | .obj p => p.signalingState == .stable || p.signalingState == .haveLocalOffer
  | _ => false

/-- Handling a concatenation of event lists. -/
theorem run_append (s : State) (a b : List Event) :
    run s (a ++ b) = run (run s a) b := by
  simp [run, List.foldl_append]

/-- Handling one more event. -/
theorem run_cons (s : State) (e : Event) (evs : List Event) :
    run s (e :: evs) = run (step s e).1 evs := rfl

/-- With a partner `P` and a connection that admits an offer,
`startNegotiation` emits one offer to `P` and the connection still admits
an offer afterwards. -/
theorem startNegotiation_emits (s : State) (P : String) (hP : P ≠ "")
    (hlive : canOffer s = true) (hpartner : s.partnerId = some P) :
    (∃ sdp, (startNegotiation s).1.outbox = s.outbox ++ [.offer sdp P]) ∧
    canOffer (startNegotiation s).1 = true ∧
    (startNegotiation s).1.partnerId = some P ∧ (startNegotiation s).2 = .ok := by
  obtain ⟨tracks, pc, ls, rs, ice, room, partner, dev, screen, status, ctl, out, gone⟩ := s
  simp only at hpartner
  subst hpartner
  cases pc with
  | undef => simp [canOffer] at hlive
  | null => simp [canOffer] at hlive
  | obj p =>
    obtain ⟨sig, conn, ld, rd, senders, appl, att, has, calls, serial⟩ := p
    cases sig <;>
      simp_all [canOffer, startNegotiation, PeerConnection.createOffer,
        PeerConnection.setLocalDescription, emit]

/-- One offer trigger for `P`, with `partnerId` already `P` unless the trigger
is `peer-joined` itself. -/
theorem step_trigger (s : State) (P : String) (e : Event) (hP : P ≠ "")
    (hlive : canOffer s = true)
    (he : e = .peerJoined P ∨ (e = .ready ∧ s.partnerId = some P)) :
    (∃ sdp, (step s e).1.outbox = s.outbox ++ [.offer sdp P]) ∧
    canOffer (step s e).1 = true ∧ (step s e).1.partnerId = some P := by
  rcases he with he | ⟨he, hpartner⟩
  · subst he
    have h := startNegotiation_emits { s with partnerId := some P } P hP hlive rfl
    exact ⟨h.1, h.2.1, h.2.2.1⟩
  · subst he
    have h := startNegotiation_emits s P hP hlive hpartner
    exact ⟨h.1, h.2.1, h.2.2.1⟩

/-- Offer triggers handled while `partnerId` is `P`. -/
theorem run_triggers (evs : List Event) (s : State) (P : String) (hP : P ≠ "")
    (hlive : canOffer s = true) (hpartner : s.partnerId = some P)
    (htrig : ∀ e ∈ evs, e = .ready ∨ e = .peerJoined P) :
    offersTo P (run s evs).outbox = offersTo P s.outbox + evs.length ∧
    (run s evs).outbox.length = s.outbox.length + evs.length := by
  induction evs generalizing s with
  | nil => simp [run]
  | cons e rest ih =>
    have he : e = .peerJoined P ∨ (e = .ready ∧ s.partnerId = some P) := by
      rcases htrig e (List.mem_cons_self e rest) with h | h
      · exact Or.inr ⟨h, hpartner⟩
      · exact Or.inl h
    obtain ⟨⟨sdp, hout⟩, hlive1, hpartner1⟩ := step_trigger s P e hP hlive he
    have hrec := ih (step s e).1 hlive1 hpartner1
      (fun x hx => htrig x (List.mem_cons_of_mem e hx))
    rw [run_cons, hrec.1, hrec.2, hout]
    simp [offersTo, isOfferTo, List.countP_append]
    omega

/-- C1 fails as stated: two `peer-joined` triggers for partner `B`, with no
answer in between, emit two offers addressed to `B`. -/
theorem two_triggers_two_offers :
    canOffer sampleCall = true ∧ offersTo "B" sampleCall.outbox = 0 ∧
    offersTo "B" (run sampleCall [.peerJoined "B", .peerJoined "B"]).outbox = 2 ∧
    offersTo "B" (run sampleCall [.peerJoined "B", .ready]).outbox = 2 := by
  decide

/-- C1, amended: with a live connection whose signalling state admits an
offer, every offer trigger for partner `P` (`peer-joined` with id `P`, or
`ready` while `partnerId` is `P`) emits one `offer` addressed to `P` and
nothing else: `n` triggers with no answer in between emit `n` offers. -/
theorem offer_per_trigger (s : State) (P : String) (evs : List Event) (hP : P ≠ "")
    (hlive : canOffer s = true)
    (htrig : ∀ e ∈ evs, e = .ready ∨ e = .peerJoined P)
    (hpartner : s.partnerId = some P ∨ evs.head? = some (.peerJoined P)) :
    offersTo P (run s evs).outbox = offersTo P s.outbox + evs.length ∧
    (run s evs).outbox.length = s.outbox.length + evs.length := by
  rcases hpartner with hpartner | hhead
  · exact run_triggers evs s P hP hlive hpartner htrig
  · cases evs with
    | nil => simp at hhead
    | cons e rest =>
      simp only [List.head?_cons, Option.some.injEq] at hhead
      subst hhead
      obtain ⟨⟨sdp, hout⟩, hlive1, hpartner1⟩ :=
        step_trigger s P (.peerJoined P) hP hlive (Or.inl rfl)
      have hrec := run_triggers rest (step s (.peerJoined P)).1 P hP hlive1 hpartner1
        (fun x hx => htrig x (List.mem_cons_of_mem _ hx))
      rw [run_cons, hrec.1, hrec.2, hout]
      simp [offersTo, isOfferTo, List.countP_append]
      omega

/-- Witness of the amended C1: `peer-joined` then `ready` on the sample call. -/
theorem offer_per_trigger_witness :
    offersTo "B" (run sampleCall [.peerJoined "B", .ready]).outbox
      = offersTo "B" sampleCall.outbox + 2 :=
  (offer_per_trigger sampleCall "B" [.peerJoined "B", .ready] (by decide) (by decide)
    (by decide) (Or.inr rfl)).1

/-! ## Remote candidates -/

/-- The remote candidates the connection has applied, in order. -/
def applied (s : State) : List Candidate :=
  match s.pc with
  | .obj p => p.appliedCandidates
  | _ => []

/-- A live, open connection that has a remote description. -/
def hasRemote (s : State) : Bool :=
  match s.pc with
  | .obj p => p.remoteDescription.isSome && p.signalingState != .closed
  | _ => false

/-- The candidate handler never raises. -/
theorem onIceCandidate_ok (s : State) (c : Candidate) : (onIceCandidate s c).2 = .ok := by
  unfold onIceCandidate
  split
  · split <;> rfl
  · rfl

/-- Candidates that arrive while the connection has no remote description
leave the whole state as it is. -/
theorem run_candidates_dropped (cs : List Candidate) (s : State) (p : PeerConnection)
    (hpc : s.pc = .obj p) (hnone : p.remoteDescription = none) :
    run s (cs.map .iceCandidate) = s := by
  induction cs with
  | nil => rfl
  | cons c rest ih =>
    have hadd : p.addIceCandidate c = none := by
      simp [PeerConnection.addIceCandidate, hnone]
    have hstep : (step s (.iceCandidate c)).1 = s := by
      simp [step, onIceCandidate, hpc, hadd]
    rw [List.map_cons, run_cons, hstep, ih]

/-- Candidates that arrive while the connection has a remote description are
applied in arrival order. -/
theorem run_candidates_applied (ds : List Candidate) (s : State)
    (h : hasRemote s = true) :
    applied (run s (ds.map .iceCandidate)) = applied s ++ ds := by
  induction ds generalizing s with
  | nil => simp [run]
  | cons d rest ih =>
    obtain ⟨tracks, pc, ls, rs, ice, room, partner, dev, screen, status, ctl, out, gone⟩ := s
    cases pc with
    | undef => simp [hasRemote] at h
    | null => simp [hasRemote] at h
    | obj p =>
      obtain ⟨sig, conn, ld, rd, senders, appl, att, has, calls, serial⟩ := p
      cases rd with
      | none => simp [hasRemote] at h
      | some r =>
        have hsig : sig ≠ .closed := by simpa [hasRemote] using h
        rw [List.map_cons, run_cons]
        simp only [step, onIceCandidate, PeerConnection.addIceCandidate, hsig, if_false]
        rw [ih _ (by simpa [hasRemote] using hsig)]
        simp [applied]

/-- An `offer` or `answer` whose description the connection accepts sets the
remote description and applies no candidate. -/
theorem step_description (s : State) (p : PeerConnection) (sdp : Sdp) (src : String)
    (ev : Event) (hpc : s.pc = .obj p)
    (hacc : (p.setRemoteDescription sdp).isSome = true)
    (hev : ev = .offer sdp src ∨ ev = .answer sdp) :
    hasRemote (step s ev).1 = true ∧ applied (step s ev).1 = applied s := by
  obtain ⟨tracks, pc, ls, rs, ice, room, partner, dev, screen, status, ctl, out, gone⟩ := s
  simp only at hpc
  subst hpc
  obtain ⟨sig, conn, ld, rd, senders, appl, att, has, calls, serial⟩ := p
  obtain ⟨kind, n⟩ := sdp
  rcases hev with hev | hev <;> subst hev <;> cases kind <;> cases sig <;>
    simp_all [step, onOffer, onAnswer, PeerConnection.setRemoteDescription,
      PeerConnection.createAnswer, PeerConnection.setLocalDescription, hasRemote,
      applied, emit]

/-- C2 fails as stated: two candidates that arrive before the offer are not
applied once the offer has set the remote description; the connection has
applied no candidate at all. -/
theorem early_candidates_lost :
    hasRemote sampleCall = false ∧
    hasRemote (run sampleCall
      [.iceCandidate ⟨1⟩, .iceCandidate ⟨2⟩, .offer ⟨.offer, 9⟩ "B"]) = true ∧
    applied (run sampleCall
      [.iceCandidate ⟨1⟩, .iceCandidate ⟨2⟩, .offer ⟨.offer, 9⟩ "B"]) = [] := by
  decide

/-- C2, amended: every inbound `ice-candidate` is handed to the connection
when it arrives and the handler never raises.  Candidates `cs` that arrive
while the connection has no remote description are rejected by it and
dropped (the state does not change); the `offer` or `answer` that then sets
the remote description applies none of them; candidates `ds` that arrive
after it are applied in arrival order. -/
theorem candidates_applied_on_arrival (s : State) (p : PeerConnection) (sdp : Sdp)
    (src : String) (ev : Event) (cs ds : List Candidate)
    (hpc : s.pc = .obj p) (hnone : p.remoteDescription = none)
    (hacc : (p.setRemoteDescription sdp).isSome = true)
    (hev : ev = .offer sdp src ∨ ev = .answer sdp) :
    run s (cs.map .iceCandidate) = s ∧
    applied (run s (cs.map .iceCandidate ++ [ev])) = applied s ∧
    applied (run s (cs.map .iceCandidate ++ [ev] ++ ds.map .iceCandidate))
      = applied s ++ ds ∧
    (∀ t c, (onIceCandidate t c).2 = .ok) := by
  have hdrop := run_candidates_dropped cs s p hpc hnone
  have hdesc := step_description s p sdp src ev hpc hacc hev
  have hone : run s [ev] = (step s ev).1 := rfl
  refine ⟨hdrop, ?_, ?_, onIceCandidate_ok⟩
  · rw [run_append, hdrop, hone]; exact hdesc.2
  · rw [run_append, run_append, hdrop, hone, run_candidates_applied ds _ hdesc.1, hdesc.2]

/-- Witness of the amended C2 on the sample call: two early candidates are
dropped, the two that follow the offer are applied in order. -/
theorem candidates_applied_on_arrival_witness :
    applied (run sampleCall
      ([(⟨1⟩ : Candidate), ⟨2⟩].map .iceCandidate ++ [.offer ⟨.offer, 9⟩ "B"]
        ++ [(⟨3⟩ : Candidate), ⟨4⟩].map .iceCandidate))
      = applied sampleCall ++ [⟨3⟩, ⟨4⟩] :=
  (candidates_applied_on_arrival sampleCall
    { PeerConnection.fresh with handlersAttached := true, senders := [some 0, some 1] }
    ⟨.offer, 9⟩ "B" (.offer ⟨.offer, 9⟩ "B") [⟨1⟩, ⟨2⟩] [⟨3⟩, ⟨4⟩]
    rfl rfl (by decide) (Or.inl rfl)).2.2.1

/-! ## Connectivity failures -/

/-- Number of `restartIce()` calls made on the live connection. -/
def restartCount (s : State) : Nat :=
  match s.pc with
  | .obj p => p.restartIceCalls
  | _ => 0

/-- A live connection with the observer installed, in a browser that offers
`restartIce`. -/
def observed (s : State) : Bool :=
  match s.pc with
  | .obj p => p.handlersAttached && p.hasRestartIce
  | _ => false

/-- One `failed` report on an observed connection: one restart, status
`failed`, and the connection stays observed. -/
theorem step_failed (s : State) (h : observed s = true) :
    restartCount (step s (.connectionState .failed)).1 = restartCount s + 1 ∧
    (step s (.connectionState .failed)).1.status = "failed" ∧
    observed (step s (.connectionState .failed)).1 = true ∧
    (step s (.connectionState .failed)).1.outbox = s.outbox := by
  obtain ⟨tracks, pc, ls, rs, ice, room, partner, dev, screen, status, ctl, out, gone⟩ := s
  cases pc with
  | undef => simp [observed] at h
  | null => simp [observed] at h
  | obj p =>
    simp only [observed, Bool.and_eq_true] at h
    simp [step, onConnectionStateChange, h.1, h.2, restartCount, observed,
      PeerConnection.restartIce, ConnState.text]

/-- C3 fails as stated: two consecutive `failed` reports issue two ICE
restarts, not one. -/
theorem second_failure_restarts_again :
    observed sampleCall = true ∧ restartCount sampleCall = 0 ∧
    restartCount (run sampleCall [.connectionState .failed]) = 1 ∧
    restartCount (run sampleCall [.connectionState .failed, .connectionState .failed]) = 2 := by
  decide

/-- C3, amended: on a live connection with the observer installed (and a
browser that offers `restartIce`), every `failed` report issues one ICE
restart and shows the status `failed`: `n` consecutive `failed` reports issue
`n` restarts, and nothing is sent to the relay. -/
theorem restart_per_failure (n : Nat) (s : State) (h : observed s = true) :
    restartCount (run s (List.replicate n (.connectionState .failed)))
      = restartCount s + n ∧
    (0 < n → (run s (List.replicate n (.connectionState .failed))).status = "failed") ∧
    (run s (List.replicate n (.connectionState .failed))).outbox = s.outbox ∧
    observed (run s (List.replicate n (.connectionState .failed))) = true := by
  induction n generalizing s with
  | zero => simp [run, h]
  | succ k ih =>
    obtain ⟨hcount, hstatus, hobs, hout⟩ := step_failed s h
    obtain ⟨ih1, ih2, ih3, ih4⟩ := ih (step s (.connectionState .failed)).1 hobs
    rw [List.replicate_succ, run_cons]
    refine ⟨by rw [ih1, hcount]; omega, ?_, by rw [ih3, hout], ih4⟩
    intro _
    cases k with
    | zero => simpa [run] using hstatus
    | succ m => exact ih2 (Nat.succ_pos m)

/-- Witness of the amended C3: three `failed` reports on the sample call. -/
theorem restart_per_failure_witness :
    restartCount (run sampleCall (List.replicate 3 (.connectionState .failed)))
      = restartCount sampleCall + 3 :=
  (restart_per_failure 3 sampleCall (by decide)).1

end VideoCall
